import Mathlib

/-!
Verification of the dukascopy tick-data downloader.

The development shallowly embeds the Rust sources `src/downloader.rs`,
`src/main.rs` and `src/meta.rs`:

* dates (`chrono::Date<Utc>`) are modelled as the integer number of days
  since the Unix epoch, with the proleptic Gregorian conversion
  (`civilFromDays` / `daysFromCivil`) mirroring chrono's calendar;
* machine integers are `Nat`/`Int`; the 32-bit big-endian reads of the
  decoder are explicit byte arithmetic with two's-complement conversion;
* `f32` prices are idealised as exact rationals (the division by the
  price scale is rational division); `f32` volume fields carry no
  arithmetic in the source, so they are kept as their raw 32-bit words;
* fallible or panicking code returns `Option`: `none` models an
  `unwrap` panic (or a missing-key index into the metadata `HashMap`);
* the network, the LZMA library and the filesystem are parameters:
  an HTTP response oracle, a decompression oracle, and a pure
  description of the written artifact.
-/

/-- A byte of the fetched or decompressed payload. -/
abbrev Byte := Fin 256

/-! ## Calendar arithmetic (chrono's proleptic Gregorian calendar)

`civilFromDays` converts a count of days since 1970-01-01 to
`(year, month 1..12, day 1..31)`; `daysFromCivil` is its inverse.
Lean's `Int` division is floor division for positive divisors, which is
exactly what the algorithm needs. -/

/-- Convert days-since-epoch to (year, 1-based month, day). -/
def civilFromDays (z0 : Int) : Int × Nat × Nat :=
  let z := z0 + 719468
  let era : Int := z / 146097
  let doe : Int := z - era * 146097
  let yoe : Int := (doe - doe / 1460 + doe / 36524 - doe / 146096) / 365
  let y : Int := yoe + era * 400
  let doy : Int := doe - (365 * yoe + yoe / 4 - yoe / 100)
  let mp : Int := (5 * doy + 2) / 153
  let d : Int := doy - (153 * mp + 2) / 5 + 1
  let m : Int := if mp < 10 then mp + 3 else mp - 9
  (if m ≤ 2 then y + 1 else y, m.toNat, d.toNat)

/-- Convert (year, 1-based month, day) to days-since-epoch. -/
def daysFromCivil (y0 : Int) (m d : Nat) : Int :=
  let y : Int := if m ≤ 2 then y0 - 1 else y0
  let era : Int := y / 400
  let yoe : Int := y - era * 400
  let mp : Int := if 2 < m then (m : Int) - 3 else (m : Int) + 9
  let doy : Int := (153 * mp + 2) / 5 + (d : Int) - 1
  let doe : Int := yoe * 365 + yoe / 4 - yoe / 100 + doy
  era * 146097 + doe - 719468

/-- Gregorian leap-year test, as used by chrono when validating `ymd`. -/
def isLeapYear (y : Int) : Bool := decide ((y % 4 = 0 ∧ y % 100 ≠ 0) ∨ y % 400 = 0)

/-- Number of days of a (1-based) month. -/
def daysInMonth (y : Int) (m : Nat) : Nat :=
  if m = 2 then (if isLeapYear y then 29 else 28)
  else if m = 4 ∨ m = 6 ∨ m = 9 ∨ m = 11 then 30 else 31

/-! ## URL construction — `build_day_urls` / `build_urls` (downloader.rs)

The Rust code formats
`http://datafeed.dukascopy.com/datafeed/{sym}/{y}/{m0:0>2}/{d:0>2}/{h:0>2}h_ticks.bi5`
with the zero-based month `dt.month0()`.  The `downloader.rs` variant
passes the instrument through unchanged; the `main.rs` variant applies
`to_uppercase()` first. -/

/-- Rendering of a number with the `{:0>2}` format. -/
def pad2 (n : Nat) : String := if n < 10 then "0" ++ toString n else toString n

/-- The URL built for one instrument, day (days-since-epoch) and hour. -/
def dayHourUrl (instrument : String) (day : Int) (h : Nat) : String :=
  let c := civilFromDays day
  "http://datafeed.dukascopy.com/datafeed/" ++ instrument ++ "/" ++ toString c.1
    ++ "/" ++ pad2 (c.2.1 - 1) ++ "/" ++ pad2 c.2.2 ++ "/" ++ pad2 h ++ "h_ticks.bi5"

/-- Embedding of `downloader.rs::build_day_urls`: the 24 hourly URLs of one day, hours
ascending; the instrument string is interpolated unchanged. -/
def build_day_urls (instrument : String) (day : Int) : List String :=
  (List.range 24).map (dayHourUrl instrument day)

/-- Model of `str::to_uppercase`, characterwise (the symbols handled by
the program are ASCII, where the two agree). -/
def toUpperStr (s : String) : String := String.mk (s.data.map Char.toUpper)

/-- Embedding of `main.rs::build_day_urls`: identical, except the instrument is
uppercased before interpolation. -/
def main_build_day_urls (instrument : String) (day : Int) : List String :=
  (List.range 24).map (dayHourUrl (toUpperStr instrument) day)

/-- The `while from < end` loop of `build_urls`, by its iteration count:
one `build_day_urls` block per day, days ascending. -/
def build_urls_go (instrument : String) (start : Int) : Nat → List String
  | 0 => []
  | n + 1 => build_day_urls instrument start ++ build_urls_go instrument (start + 1) n

/-- Embedding of `downloader.rs::build_urls`: all day URLs for days in `[start, endd)`.
The loop `while from < end { push day urls; from += 1 day }` runs exactly
`(endd - start).toNat` times. -/
def build_urls (instrument : String) (start endd : Int) : List String :=
  build_urls_go instrument start (endd - start).toNat

theorem build_urls_go_join (s : String) : ∀ (n : Nat) (a : Int),
    build_urls_go s a n
      = ((List.range n).map (fun k : Nat => build_day_urls s (a + k))).flatten := by
  intro n
  induction n with
  | zero => intro a; rfl
  | succ n ih =>
      intro a
      show build_day_urls s a ++ build_urls_go s (a + 1) n = _
      rw [ih (a + 1)]
      rw [List.range_succ_eq_map]
      simp only [List.map_cons, List.map_map, List.flatten_cons, Nat.cast_zero, add_zero]
      congr 1
      congr 1
      apply List.map_congr_left
      intro k _
      simp only [Function.comp_apply, Nat.succ_eq_add_one]
      congr 1
      push_cast
      ring

theorem build_urls_join (s : String) (a b : Int) :
    build_urls s a b
      = ((List.range (b - a).toNat).map
          (fun k : Nat => build_day_urls s (a + k))).flatten :=
  build_urls_go_join s _ a

theorem build_urls_length (s : String) (a b : Int) :
    (build_urls s a b).length = 24 * (b - a).toNat := by
  rw [build_urls_join, List.length_flatten, List.map_map]
  generalize (b - a).toNat = n
  induction n with
  | zero => rfl
  | succ n ih =>
      rw [List.range_succ, List.map_append, List.sum_append, ih]
      simp [build_day_urls]
      ring

/-! ## URL decoding — `decode_url` (downloader.rs)

The Rust code matches the regex
`([[:upper:]]+)/(\d{4})/(\d{2})/(\d{2})/(\d{2})` against the URL and
`unwrap`s the captures, then parses the numeric fields and adds 1 to the
zero-based month.  The scanner below reproduces the regex engine's
leftmost-match search: at each start position an uppercase run is taken
greedily (the following `/` cannot match an uppercase character, so no
backtracking into the run is possible) and the fixed-shape numeric tail
is matched.  `none` models the `unwrap` panic when nothing matches. -/

/-- The `UrlInfo` struct of the source. -/
structure UrlInfo where
  symbol : String
  year : Int
  month : Nat
  day : Nat
  hour : Nat
deriving DecidableEq, Repr

/-- ASCII uppercase, the regex class `[[:upper:]]`. -/
def charUpper (c : Char) : Bool := decide ('A' ≤ c ∧ c ≤ 'Z')

/-- Numeric value of a list of ASCII digits. -/
def digitsVal (cs : List Char) : Nat :=
  cs.foldl (fun acc c => acc * 10 + (c.toNat - 48)) 0

/-- Match the tail `/\d{4}/\d{2}/\d{2}/\d{2}` after the symbol run. -/
def matchTail (cs : List Char) : Option (Nat × Nat × Nat × Nat) :=
  match cs with
  | '/' :: y1 :: y2 :: y3 :: y4 :: '/' :: m1 :: m2 :: '/' :: d1 :: d2 :: '/' :: h1 :: h2 :: _ =>
      if [y1, y2, y3, y4, m1, m2, d1, d2, h1, h2].all Char.isDigit then
        some (digitsVal [y1, y2, y3, y4], digitsVal [m1, m2],
          digitsVal [d1, d2], digitsVal [h1, h2])
      else none
  | _ => none

/-- Leftmost regex match: symbol run followed by the numeric tail. -/
def scanMatch : List Char → Option (String × Nat × Nat × Nat × Nat)
  | [] => none
  | c :: rest =>
      if charUpper c then
        match matchTail ((c :: rest).dropWhile charUpper) with
        | some (y, m, d, h) =>
            some (String.mk ((c :: rest).takeWhile charUpper), y, m, d, h)
        | none => scanMatch rest
      else scanMatch rest

/-- Embedding of `downloader.rs::decode_url`; `none` models the capture `unwrap` panic.
The matched month (zero-based on the wire) is incremented to 1-based. -/
def decode_url (url : String) : Option UrlInfo :=
  match scanMatch url.data with
  | none => none
  | some (s, y, m, d, h) => some ⟨s, (y : Int), m + 1, d, h⟩

/-! ## Binary decoder — the record loop of `process_response`

Each 20-byte big-endian chunk is: 4-byte signed millisecond offset,
4-byte signed scaled ask, 4-byte signed scaled bid, 4-byte float ask
volume, 4-byte float bid volume.  `chrono`'s `Utc.ymd(..).and_hms(h,0,0)`
panics on an out-of-range date or hour, which the loop evaluates as soon
as it has read the first offset of a chunk; `validInfo` captures that
range check.  Prices are idealised as exact rationals; the volume floats
carry no arithmetic in the source and are kept as raw 32-bit words. -/

/-- Decoded tick record (`Record` in the source).  `dtMillis` is the
timestamp in milliseconds since the epoch; `askVolBits`/`bidVolBits` are
the raw big-endian words of the two `f32` volume fields. -/
structure Record where
  dtMillis : Int
  ask : ℚ
  bid : ℚ
  askVolBits : Nat
  bidVolBits : Nat
deriving DecidableEq, Repr

/-- Big-endian 32-bit word from four bytes. -/
def beWord (b0 b1 b2 b3 : Byte) : Nat :=
  ((b0.val * 256 + b1.val) * 256 + b2.val) * 256 + b3.val

/-- Two's-complement reading of a 32-bit word, as `read_i32` does. -/
def i32ofWord (w : Nat) : Int :=
  if w < 2 ^ 31 then (w : Int) else (w : Int) - 2 ^ 32

/-- Date/hour range check done by `Utc.ymd(y,m,d).and_hms(h,0,0)`. -/
def validInfo (i : UrlInfo) : Bool :=
  decide (1 ≤ i.month ∧ i.month ≤ 12 ∧ 1 ≤ i.day ∧
    i.day ≤ daysInMonth i.year i.month ∧ i.hour ≤ 23)

/-- Milliseconds since the epoch of the descriptor's hour start,
`Utc.ymd(info.year, info.month, info.day).and_hms(info.hour, 0, 0)`. -/
def hourStartMillis (i : UrlInfo) : Int :=
  (daysFromCivil i.year i.month i.day * 86400 + (i.hour : Int) * 3600) * 1000

/-- One 20-byte chunk of the decompressed payload. -/
structure Chunk where
  (ms0 ms1 ms2 ms3 : Byte)
  (a0 a1 a2 a3 : Byte)
  (b0 b1 b2 b3 : Byte)
  (av0 av1 av2 av3 : Byte)
  (bv0 bv1 bv2 bv3 : Byte)
deriving DecidableEq, Repr

/-- The byte sequence of a chunk. -/
def chunkBytes (c : Chunk) : List Byte :=
  [c.ms0, c.ms1, c.ms2, c.ms3, c.a0, c.a1, c.a2, c.a3, c.b0, c.b1, c.b2, c.b3,
    c.av0, c.av1, c.av2, c.av3, c.bv0, c.bv1, c.bv2, c.bv3]

/-- The record one loop iteration builds from a chunk: timestamp is the
hour anchor plus the signed millisecond offset, prices are the signed
integers divided by the symbol's scale, volumes are the raw words. -/
def recordOfChunk (info : UrlInfo) (scale : ℚ) (c : Chunk) : Record :=
  { dtMillis := hourStartMillis info + i32ofWord (beWord c.ms0 c.ms1 c.ms2 c.ms3)
  , ask := (i32ofWord (beWord c.a0 c.a1 c.a2 c.a3) : ℚ) / scale
  , bid := (i32ofWord (beWord c.b0 c.b1 c.b2 c.b3) : ℚ) / scale
  , askVolBits := beWord c.av0 c.av1 c.av2 c.av3
  , bidVolBits := beWord c.bv0 c.bv1 c.bv2 c.bv3 }

/-- The `while pos < decomp_len` loop of `process_response`.  A buffer
that is not a whole number of 20-byte chunks makes a 4-byte read (or the
date validation) panic mid-chunk, modelled by `none`; no partial record
list is ever produced. -/
def decodeChunks (info : UrlInfo) (scale : ℚ) : List Byte → Option (List Record)
  | [] => some []
  | x0 :: x1 :: x2 :: x3 :: x4 :: x5 :: x6 :: x7 :: x8 :: x9 :: x10 :: x11 :: x12
      :: x13 :: x14 :: x15 :: x16 :: x17 :: x18 :: x19 :: rest =>
      if validInfo info then
        (decodeChunks info scale rest).map
          (fun rs => recordOfChunk info scale
            ⟨x0, x1, x2, x3, x4, x5, x6, x7, x8, x9, x10, x11, x12, x13, x14,
              x15, x16, x17, x18, x19⟩ :: rs)
      else none
  | _ => none

/-! ## Fetch orchestration — `process_response`, `download_urls`, `download`

The HTTP layer is an oracle `resp : String → HResp` (per attempt:
`Nat → String → HResp`), LZMA decompression is an oracle
`List Byte → Option (List Byte)` (`none` = decompression error), and the
metadata `HashMap` is an association list.  In all of these, an outer
`none` result models a panic (`unwrap`, or `HashMap` indexing with a
missing key): the whole surrounding task — and with it the batch —
aborts, whereas `some` is a normal return. -/

/-- Outcome of an `isahc::get_async` call: transport error, or a
response with a status code and a body of known length. -/
inductive HResp where
  | err
  | ok (status : Nat) (body : List Byte)
deriving DecidableEq, Repr

/-- Lookup in the metadata map (`meta_dict[&info.symbol]` panics when
the key is absent, hence the `Option`). -/
def lookupMeta (meta : List (String × ℚ)) (s : String) : Option ℚ :=
  List.lookup s meta

/-- Embedding of `downloader.rs::process_response`.  Returns `none` for a panic;
`some none` when no file is written (non-200 status or empty body);
`some (some (info, records))` when a file for `info` holding `records`
is written.  The steps and their order mirror the source: decompress,
decode the URL, index the metadata map, then run the record loop. -/
def process_response (lzma : List Byte → Option (List Byte))
    (meta : List (String × ℚ)) (url : String) (status : Nat) (body : List Byte) :
    Option (Option (UrlInfo × List Record)) :=
  if status = 200 ∧ body ≠ [] then
    match lzma body with
    | none => none
    | some decomp =>
      match decode_url url with
      | none => none
      | some info =>
        match lookupMeta meta info.symbol with
        | none => none
        | some scale =>
          match decodeChunks info scale decomp with
          | none => none
          | some records => some (some (info, records))
  else some none

/-- The per-URL closure of `downloader.rs::download_urls`: statuses 200
and 404 are handed to `process_response` (whose `io::Result` is
discarded — but a panic is not) and yield no retry entry; any other
status, or a transport error, yields the URL itself for the retry set. -/
def handle (lzma : List Byte → Option (List Byte)) (meta : List (String × ℚ))
    (resp : String → HResp) (url : String) : Option (Option String) :=
  match resp url with
  | .err => some (some url)
  | .ok status body =>
      if status = 200 ∨ status = 404 then
        match process_response lzma meta url status body with
        | none => none
        | some _ => some none
      else some (some url)

/-- Embedding of `downloader.rs::download_urls`: run every URL's closure and collect
the failed URLs in order; a panic in any closure aborts the batch. -/
def download_urls (lzma : List Byte → Option (List Byte))
    (meta : List (String × ℚ)) (resp : String → HResp) :
    List String → Option (List String)
  | [] => some []
  | url :: rest =>
      match handle lzma meta resp url, download_urls lzma meta resp rest with
      | none, _ => none
      | some _, none => none
      | some o, some rs => some (o.toList ++ rs)

/-- Is a response classified for the retry set (any status other than
200/404, or a transport error)? -/
def retryable : HResp → Bool
  | .err => true
  | .ok status _ => decide (status ≠ 200 ∧ status ≠ 404)

/-- Observable orchestration events: a batch run on a work set (tagged
with its attempt index), or a timed sleep in seconds. -/
inductive Ev where
  | batch (index : Nat) (work : List String)
  | sleep (secs : Nat)
deriving DecidableEq, Repr

/-- The retry loop of `downloader.rs::download`:
`while error_urls.len() > 0 && index <= retry_count` — sleep 5 s, rerun
the failed URLs, increment the attempt index.  `fuel` is the remaining
retry budget `retry_count + 1 - index`, so `fuel = 0` is exactly the
loop's `index > retry_count` exit and the `errs = []` exit is explicit. -/
def downloadGo (lzma : List Byte → Option (List Byte)) (meta : List (String × ℚ))
    (resp : Nat → String → HResp) : Nat → Nat → List String → List Ev →
    Option (List Ev × List String)
  | 0, _, errs, trace => some (trace, errs)
  | fuel + 1, index, errs, trace =>
      if errs = [] then some (trace, errs)
      else
        match download_urls lzma meta (resp index) errs with
        | none => none
        | some errs2 =>
            downloadGo lzma meta resp fuel (index + 1) errs2
              (trace ++ [Ev.sleep 5, Ev.batch index errs])

/-- Embedding of `downloader.rs::download`: build the URLs of `[start, endd)`, run the
initial batch, then the retry loop (starting at attempt index 1 with
budget `retry_count`); the residual failures are returned inside a
successful (`some`, i.e. `Ok`) result. -/
def download (lzma : List Byte → Option (List Byte)) (meta : List (String × ℚ))
    (resp : Nat → String → HResp) (symbol : String) (start endd : Int)
    (retry_count : Nat) : Option (List Ev × List String) :=
  let urls := build_urls symbol start endd
  match download_urls lzma meta (resp 0) urls with
  | none => none
  | some errs => downloadGo lzma meta resp retry_count 1 errs [Ev.batch 0 urls]

/-- The shape of a completed retry phase: each retry is a 5-second sleep
followed by a batch over exactly the previous batch's failures, attempt
indices counting up while `index ≤ retry_count`; the loop stops when the
failure set is empty or the budget is exhausted, handing the remaining
failures back unchanged. -/
inductive RetryChain (lzma : List Byte → Option (List Byte))
    (meta : List (String × ℚ)) (resp : Nat → String → HResp)
    (retry_count : Nat) : Nat → List String → List Ev → List String → Prop
  | done (index : Nat) (errs : List String) (h : errs = [] ∨ retry_count < index) :
      RetryChain lzma meta resp retry_count index errs [] errs
  | step (index : Nat) (errs errs2 : List String) (suffix : List Ev)
      (final : List String) (hne : errs ≠ []) (hle : index ≤ retry_count)
      (hdl : download_urls lzma meta (resp index) errs = some errs2)
      (rest : RetryChain lzma meta resp retry_count (index + 1) errs2 suffix final) :
      RetryChain lzma meta resp retry_count index errs
        (Ev.sleep 5 :: Ev.batch index errs :: suffix) final

/-- Number of batch events in a trace. -/
def countBatches (t : List Ev) : Nat :=
  t.countP (fun e => match e with | .batch _ _ => true | _ => false)

/-! ## Record writer — `write_to_file` (downloader.rs and main.rs)

The writer's row rendering uses the `Display` instances of
`DateTime<Utc>` and `f32`; the rendered field strings are taken as given
and the writer is specified on them.  `downloader.rs::write_to_file`
writes only the joined rows; `main.rs::write_to_file` first writes the
header line `datetime, ask, bid, ask_vol, bid_vol`. -/

/-- One tick with its five fields already rendered by `Display`. -/
structure RenderedRecord where
  dt : String
  ask : String
  bid : String
  askVol : String
  bidVol : String
deriving DecidableEq, Repr

/-- One row, `format!("{},{},{},{},{}", r.dt, r.ask, r.bid, r.ask_vol, r.bid_vol)`. -/
def recordLine (r : RenderedRecord) : String :=
  r.dt ++ "," ++ r.ask ++ "," ++ r.bid ++ "," ++ r.askVol ++ "," ++ r.bidVol

/-- File content written by `downloader.rs::write_to_file`: the rows
joined by newlines, no header. -/
def write_content (rs : List RenderedRecord) : String :=
  String.intercalate "\n" (rs.map recordLine)

/-- File content written by `main.rs::write_to_file`: a header line
(note the spaces after the commas), then the joined rows. -/
def main_write_content (rs : List RenderedRecord) : String :=
  "datetime, ask, bid, ask_vol, bid_vol\n" ++ write_content rs

/-- The artifact name, `{sym}_{y}_{m:0>2}_{d:0>2}_{h:0>2}h_ticks.bi5`,
identical in both variants. -/
def write_filename (info : UrlInfo) : String :=
  info.symbol ++ "_" ++ toString info.year ++ "_" ++ pad2 info.month ++ "_"
    ++ pad2 info.day ++ "_" ++ pad2 info.hour ++ "h_ticks.bi5"

/-! ## Concrete fixtures used by witnesses and counterexamples -/

/-- 2003-01-05 as days since the epoch (the repository's own test date). -/
def day20030105 : Int := daysFromCivil 2003 1 5

/-- The hour-00 URL of the test date, uppercase symbol. -/
def urlEU : String :=
  "http://datafeed.dukascopy.com/datafeed/EURUSD/2003/00/05/00h_ticks.bi5"

/-- A sibling hour-01 URL of the test date. -/
def urlEU1 : String :=
  "http://datafeed.dukascopy.com/datafeed/EURUSD/2003/00/05/01h_ticks.bi5"

/-- The descriptor of `urlEU`. -/
def infoEU : UrlInfo := ⟨"EURUSD", 2003, 1, 5, 0⟩

/-- A metadata map holding only EURUSD with price scale 100000. -/
def metaEU : List (String × ℚ) := [("EURUSD", 100000)]

/-- An all-zero 20-byte chunk. -/
def zChunk : Chunk := ⟨0, 0, 0, 0, 0, 0, 0, 0, 0, 0, 0, 0, 0, 0, 0, 0, 0, 0, 0, 0⟩

/-- Decompression oracle producing a valid single all-zero chunk. -/
def lzma20 : List Byte → Option (List Byte) := fun _ => some (List.replicate 20 0)

/-- Decompression oracle producing a 25-byte buffer (not a multiple of 20). -/
def lzma25 : List Byte → Option (List Byte) := fun _ => some (List.replicate 25 0)

/-- Decompression oracle that always fails (corrupt payload). -/
def lzmaFail : List Byte → Option (List Byte) := fun _ => none

/-! ## C1 — decoding N concatenated 20-byte chunks -/

/-- C1: for every descriptor (any symbol/valid date), price scale and
buffer made of N concatenated 20-byte big-endian chunks, the decoder
yields exactly N records, in chunk order; record i has timestamp
`hour start + leading signed 4-byte millisecond offset`, ask and bid the
next two signed 4-byte integers divided by the scale, and the volume
fields read from the trailing two 4-byte float words
(see `recordOfChunk`). -/
theorem decode_yields_one_record_per_chunk (info : UrlInfo) (scale : ℚ)
    (chunks : List Chunk) (hv : validInfo info = true) :
    decodeChunks info scale ((chunks.map chunkBytes).flatten)
      = some (chunks.map (recordOfChunk info scale))
    ∧ (chunks.map (recordOfChunk info scale)).length = chunks.length := by
  refine ⟨?_, by simp⟩
  induction chunks with
  | nil => rfl
  | cons c cs ih =>
      simp only [List.map_cons, List.flatten_cons]
      rw [chunkBytes]
      simp only [List.cons_append, List.nil_append]
      rw [decodeChunks, if_pos hv, ih]
      rfl

/-- C1 witness: the spec's end-to-end example — one all-zero chunk for
EURUSD 2003-01-05 hour 00 yields exactly one record at the hour-start
instant with ask (0 / 100000) and bid 0 and zero volume words. -/
theorem decode_yields_one_record_per_chunk_witness :
    decodeChunks infoEU 100000 (([zChunk].map chunkBytes).flatten)
      = some ([zChunk].map (recordOfChunk infoEU 100000))
    ∧ [zChunk].map (recordOfChunk infoEU 100000)
      = [{ dtMillis := 1041724800000, ask := 0, bid := 0, askVolBits := 0, bidVolBits := 0 }] := by
  refine ⟨(decode_yields_one_record_per_chunk infoEU 100000 [zChunk] (by decide)).1, ?_⟩
  have hmil : hourStartMillis infoEU = 1041724800000 := by decide
  have hw : i32ofWord (beWord 0 0 0 0) = 0 := by decide
  have hb : beWord 0 0 0 0 = 0 := by decide
  have hz : i32ofWord 0 = 0 := by decide
  simp [zChunk, recordOfChunk, hmil, hw, hb, hz]

/-! ## C2 — the locator builder's count and order -/

/-- C2: for every symbol and date pair, `build_urls` yields exactly
`24 * daysBetween(start, end)` URLs (`daysBetween = (end - start).toNat`),
laid out day by ascending day (`List.range` of the day offsets) and,
within each day, hour 0..23 ascending (`List.range 24`); for
`end ≤ start` it yields the empty list (no failure mode: the function is
total). -/
theorem build_urls_count_and_order (s : String) (a b : Int) :
    (build_urls s a b).length = 24 * (b - a).toNat
    ∧ build_urls s a b
        = ((List.range (b - a).toNat).map
            (fun k : Nat => build_day_urls s (a + k))).flatten
    ∧ build_day_urls s a = (List.range 24).map (dayHourUrl s a)
    ∧ (b ≤ a → build_urls s a b = []) := by
  refine ⟨build_urls_length s a b, build_urls_join s a b, rfl, fun h => ?_⟩
  rw [build_urls_join s a b]
  have h0 : (b - a).toNat = 0 := by omega
  rw [h0]
  rfl

/-- C2 witness: an empty range (end = start) yields the empty sequence. -/
theorem build_urls_count_and_order_witness :
    build_urls "EURUSD" day20030105 day20030105 = [] :=
  (build_urls_count_and_order "EURUSD" day20030105 day20030105).2.2.2 (by omega)

/-! ## C5 — round-tripping descriptors through the resource key -/

/-- C5 (code bug): `downloader.rs` dropped the `to_uppercase()` call of
`main.rs`, so on the repository's own test input (`test_url_info` builds
with "eurusd" and asserts the decoded symbol is "EURUSD") the regex of
`decode_url` — which only matches uppercase symbols — finds no match and
the capture `unwrap` panics (`none`).  With an already-uppercase symbol
the round trip does recover (symbol, year, 1-based month, day, hour),
including the 0-based wire month mapping back to January = 1. -/
theorem decode_url_roundtrip_code_bug :
    decode_url ((build_day_urls "eurusd" day20030105).headD "") = none
    ∧ (build_day_urls "eurusd" day20030105).length = 24
    ∧ decode_url ((build_day_urls "EURUSD" day20030105).headD "")
        = some ⟨"EURUSD", 2003, 1, 5, 0⟩
    ∧ decode_url ((build_day_urls "EURUSD" day20030105).getD 23 "")
        = some ⟨"EURUSD", 2003, 1, 5, 23⟩ := by
  refine ⟨by decide, by decide, by decide, by decide⟩

/-! ## C6 — symbol casing and field formatting of the built URL -/

/-- C6 (code bug): `downloader.rs::build_day_urls` interpolates the
instrument unchanged, so a lowercase input stays lowercase in the URL —
its own test `test_day_urls` ("eurusd" expecting `.../EURUSD/...`) fails
on this code.  The `main.rs` variant uppercases as the test and spec
demand.  Month is rendered zero-based zero-padded ("00" for January) and
day and hour are zero-padded, in both variants. -/
theorem build_day_urls_lowercase_code_bug :
    (build_day_urls "eurusd" day20030105).headD ""
      = "http://datafeed.dukascopy.com/datafeed/eurusd/2003/00/05/00h_ticks.bi5"
    ∧ (main_build_day_urls "eurusd" day20030105).headD ""
      = "http://datafeed.dukascopy.com/datafeed/EURUSD/2003/00/05/00h_ticks.bi5"
    ∧ "http://datafeed.dukascopy.com/datafeed/eurusd/2003/00/05/00h_ticks.bi5"
      ≠ "http://datafeed.dukascopy.com/datafeed/EURUSD/2003/00/05/00h_ticks.bi5" := by
  refine ⟨by decide, by decide, by decide⟩

/-! ## C9 — the written artifact -/

/-- A concrete rendered tick row. -/
def renderedR : RenderedRecord := ⟨"2003-01-05 00:00:00 UTC", "1.2", "1.1", "0.5", "0.6"⟩

/-- C9 counterexample: neither writer starts its artifact with the
claimed header line `datetime,ask,bid,ask_vol,bid_vol` — the
`downloader.rs` writer emits no header at all, and the `main.rs` writer
emits `datetime, ask, bid, ask_vol, bid_vol` (with spaces). -/
theorem write_header_counterexample :
    ("datetime,ask,bid,ask_vol,bid_vol".data.isPrefixOf
        (write_content [renderedR]).data) = false
    ∧ ("datetime,ask,bid,ask_vol,bid_vol".data.isPrefixOf
        (main_write_content [renderedR]).data) = false := by
  refine ⟨by decide, by decide⟩

/-- C9 as amended: the `downloader.rs` writer persists exactly the data
rows — one comma-delimited `dt,ask,bid,ask_vol,bid_vol` row per tick, in
record order, newline-joined, with no header; the `main.rs` writer
prepends the header line `datetime, ask, bid, ask_vol, bid_vol` (with
spaces).  The artifact name is a deterministic function of the
descriptor's (symbol, year, month, day, hour) alone, zero-padded, so a
re-run maps the same descriptor to the same file. -/
theorem write_content_characterization (rs : List RenderedRecord) (info i j : UrlInfo) :
    main_write_content rs = "datetime, ask, bid, ask_vol, bid_vol\n" ++ write_content rs
    ∧ write_content rs = String.intercalate "\n" (rs.map recordLine)
    ∧ (rs.map recordLine).length = rs.length
    ∧ (∀ r ∈ rs, recordLine r
        = r.dt ++ "," ++ r.ask ++ "," ++ r.bid ++ "," ++ r.askVol ++ "," ++ r.bidVol)
    ∧ write_filename info = info.symbol ++ "_" ++ toString info.year ++ "_"
        ++ pad2 info.month ++ "_" ++ pad2 info.day ++ "_" ++ pad2 info.hour ++ "h_ticks.bi5"
    ∧ (i.symbol = j.symbol → i.year = j.year → i.month = j.month → i.day = j.day →
        i.hour = j.hour → write_filename i = write_filename j) := by
  refine ⟨rfl, rfl, by simp, fun r _ => rfl, rfl, fun h1 h2 h3 h4 h5 => ?_⟩
  rw [write_filename, write_filename, h1, h2, h3, h4, h5]

/-- C9 witness: filename determinism applied at the test descriptor. -/
theorem write_content_characterization_witness :
    write_filename infoEU = write_filename ⟨"EURUSD", 2003, 1, 5, 0⟩
    ∧ write_filename infoEU = "EURUSD_2003_01_05_00h_ticks.bi5" := by
  refine ⟨(write_content_characterization [] infoEU infoEU
    ⟨"EURUSD", 2003, 1, 5, 0⟩).2.2.2.2.2 rfl rfl rfl rfl rfl, by decide⟩

/-! ## C10 — when `process_response` writes a file -/

/-- C10 counterexample: a 200 response with a non-empty body whose
decompressed buffer is 25 bytes (not a multiple of 20) creates no file —
`process_response` panics (`none`) instead of writing, so "file created
iff status 200 and non-empty body" fails at this input. -/
theorem process_response_iff_counterexample :
    process_response lzma25 metaEU urlEU 200 [1] = none
    ∧ (200 : Nat) = 200 ∧ ([(1 : Byte)] : List Byte).length = 1 := by
  refine ⟨by decide, rfl, rfl⟩

/-- C10 as amended: `process_response` writes a file for a descriptor
iff the response has status 200, a non-empty body, and the whole decode
pipeline succeeds — decompression, URL decoding (with a chrono-valid
date), metadata lookup, and the 20-byte record loop; for any non-200
status (404 included) or an empty 200 body it returns `Ok` having
created no file; a 200 body failing any decode step panics and creates
no file. -/
theorem process_response_file_characterization
    (lzma : List Byte → Option (List Byte)) (meta : List (String × ℚ))
    (url : String) (status : Nat) (body : List Byte) :
    ((status ≠ 200 ∨ body = []) → process_response lzma meta url status body = some none)
    ∧ (∀ decomp info scale recs, status = 200 → body ≠ [] →
        lzma body = some decomp → decode_url url = some info →
        lookupMeta meta info.symbol = some scale →
        decodeChunks info scale decomp = some recs →
        process_response lzma meta url status body = some (some (info, recs)))
    ∧ (∀ w, process_response lzma meta url status body = some (some w) →
        status = 200 ∧ body ≠ [] ∧ ∃ decomp scale,
          lzma body = some decomp ∧ decode_url url = some w.1
          ∧ lookupMeta meta w.1.symbol = some scale
          ∧ decodeChunks w.1 scale decomp = some w.2) := by
  refine ⟨?_, ?_, ?_⟩
  · intro h
    rw [process_response, if_neg]
    tauto
  · intro decomp info scale recs h1 h2 hlz hdu hlk hdc
    rw [process_response, if_pos ⟨h1, h2⟩]
    simp only [hlz, hdu, hlk, hdc]
  · intro w h
    rw [process_response] at h
    split at h
    case isTrue hc =>
      refine ⟨hc.1, hc.2, ?_⟩
      cases hlz : lzma body with
      | none => simp [hlz] at h
      | some decomp =>
        simp only [hlz] at h
        cases hdu : decode_url url with
        | none => simp [hdu] at h
        | some info =>
          simp only [hdu] at h
          cases hlk : lookupMeta meta info.symbol with
          | none => simp [hlk] at h
          | some scale =>
            simp only [hlk] at h
            cases hdc : decodeChunks info scale decomp with
            | none => simp [hdc] at h
            | some recs =>
              simp only [hdc, Option.some.injEq] at h
              subst h
              exact ⟨decomp, scale, rfl, rfl, hlk, hdc⟩
    case isFalse => simp at h

/-- C10 witness: a 404 response returns `Ok` with no file written. -/
theorem process_response_file_characterization_witness :
    process_response lzmaFail metaEU urlEU 404 [1] = some none :=
  (process_response_file_characterization lzmaFail metaEU urlEU 404 [1]).1
    (Or.inl (by decide))

/-! ## C7 — decode failures and sibling descriptors -/

/-- Response oracle: a 200 response with a 1-byte body for `urlEU`,
a clean 404 for everything else. -/
def respBad200 : String → HResp :=
  fun u => if u = urlEU then HResp.ok 200 [1] else HResp.ok 404 []

/-- C7 (code bug): a decompressed buffer of 25 bytes (not a multiple of
20) produces no records at all — but the decode error is a panic
(`unwrap` on the failed cursor read), which `download_urls` does not
contain (`let _ = ...` only discards the `io::Result`): the whole batch
aborts (`none`), although the sibling 404 descriptor on its own is
processed fine (`some none`).  The spec's "scoped to that one
descriptor, siblings not aborted" is the intent; the code panics. -/
theorem decode_error_aborts_batch_code_bug :
    download_urls lzma25 metaEU respBad200 [urlEU, urlEU1] = none
    ∧ handle lzma25 metaEU respBad200 urlEU1 = some none
    ∧ decodeChunks infoEU 100000 (List.replicate 25 0) = none
    ∧ download_urls lzmaFail metaEU respBad200 [urlEU, urlEU1] = none := by
  refine ⟨by decide, by decide, by decide, by decide⟩

/-! ## C8 — symbols absent from the metadata map -/

theorem download_urls_const404 (lzma : List Byte → Option (List Byte))
    (meta : List (String × ℚ)) (urls : List String) :
    download_urls lzma meta (fun _ => HResp.ok 404 []) urls = some [] := by
  induction urls with
  | nil => rfl
  | cons u rest ih => simp [download_urls, handle, process_response, ih]

/-- C8 (code bug): with an empty metadata map the download run of a full
day performs all 24 fetches and — when every response is a 404 —
completes successfully with an empty failure set: no failure happens
before (or instead of) network access.  Only when a 200 non-empty
response must be decoded does the missing-symbol lookup panic, i.e.
after that descriptor was already fetched.  The spec's "fail before any
network access" is the intent; the code has no such pre-check (it never
defaults the scale, though: the lookup panics rather than substituting
one). -/
theorem missing_meta_fetches_anyway_code_bug :
    download lzmaFail [] (fun _ _ => HResp.ok 404 []) "EURUSD" day20030105
        (day20030105 + 1) 3
      = some ([Ev.batch 0 (build_urls "EURUSD" day20030105 (day20030105 + 1))], [])
    ∧ (build_urls "EURUSD" day20030105 (day20030105 + 1)).length = 24
    ∧ process_response lzma20 [] urlEU 200 [1] = none := by
  refine ⟨?_, ?_, by decide⟩
  · show (match download_urls lzmaFail [] (fun _ => HResp.ok 404 [])
        (build_urls "EURUSD" day20030105 (day20030105 + 1)) with
      | none => none
      | some errs => downloadGo lzmaFail [] (fun _ _ => HResp.ok 404 []) 3 1 errs
          [Ev.batch 0 (build_urls "EURUSD" day20030105 (day20030105 + 1))]) = _
    rw [download_urls_const404]
    rfl
  · rw [build_urls_length]
    omega

/-! ## C3 — classification of fetch outcomes and the final failure set -/

theorem handle_eq_of_some (lzma : List Byte → Option (List Byte))
    (meta : List (String × ℚ)) (resp : String → HResp) (url : String)
    (o : Option String) (h : handle lzma meta resp url = some o) :
    o = if retryable (resp url) = true then some url else none := by
  rw [handle] at h
  cases hr : resp url with
  | err =>
      rw [hr] at h
      simp only [Option.some.injEq] at h
      simp [hr, retryable, ← h]
  | ok status body =>
      simp only [hr] at h
      by_cases hs : status = 200 ∨ status = 404
      · rw [if_pos hs] at h
        cases hp : process_response lzma meta url status body with
        | none => simp [hp] at h
        | some r =>
            simp only [hp, Option.some.injEq] at h
            have hf : retryable (HResp.ok status body) = false := by
              rcases hs with hs | hs <;> simp [retryable, hs]
            rw [hf]
            simp [← h]
      · rw [if_neg hs] at h
        simp only [Option.some.injEq] at h
        have ht : retryable (HResp.ok status body) = true := by
          push_neg at hs
          simp [retryable, hs]
        rw [ht]
        simp [← h]

theorem download_urls_mem (lzma : List Byte → Option (List Byte))
    (meta : List (String × ℚ)) (resp : String → HResp) :
    ∀ (urls rs : List String), download_urls lzma meta resp urls = some rs →
      ∀ u, u ∈ rs ↔ (u ∈ urls ∧ retryable (resp u) = true) := by
  intro urls
  induction urls with
  | nil =>
      intro rs h u
      simp only [download_urls, Option.some.injEq] at h
      subst h
      simp
  | cons url rest ih =>
      intro rs h u
      rw [download_urls] at h
      cases hh : handle lzma meta resp url with
      | none => simp [hh] at h
      | some o =>
          simp only [hh] at h
          cases hrec : download_urls lzma meta resp rest with
          | none => simp [hrec] at h
          | some rs2 =>
              simp only [hrec, Option.some.injEq] at h
              subst h
              have ho := handle_eq_of_some lzma meta resp url o hh
              have hr := ih rs2 hrec u
              by_cases hru : retryable (resp url) = true
              · rw [if_pos hru] at ho
                subst ho
                simp only [Option.toList_some, List.singleton_append, List.mem_cons]
                constructor
                · rintro (hm | hm)
                  · subst hm
                    exact ⟨Or.inl rfl, hru⟩
                  · obtain ⟨h1, h2⟩ := hr.mp hm
                    exact ⟨Or.inr h1, h2⟩
                · rintro ⟨hm | hm, hrr⟩
                  · exact Or.inl hm
                  · exact Or.inr (hr.mpr ⟨hm, hrr⟩)
              · rw [if_neg hru] at ho
                subst ho
                simp only [Option.toList_none, List.nil_append, List.mem_cons]
                rw [hr]
                constructor
                · rintro ⟨hm, hrr⟩
                  exact ⟨Or.inr hm, hrr⟩
                · rintro ⟨hm | hm, hrr⟩
                  · subst hm
                    exact absurd hrr hru
                  · exact ⟨hm, hrr⟩

theorem downloadGo_final_batches (lzma : List Byte → Option (List Byte))
    (meta : List (String × ℚ)) (resp : Nat → String → HResp) :
    ∀ (fuel index : Nat) (errs : List String) (trace trace2 : List Ev)
      (final : List String),
      downloadGo lzma meta resp fuel index errs trace = some (trace2, final) →
      ∀ u ∈ final, u ∈ errs ∧
        ∀ i w, Ev.batch i w ∈ trace2 →
          Ev.batch i w ∈ trace ∨ retryable (resp i u) = true := by
  intro fuel
  induction fuel with
  | zero =>
      intro index errs trace trace2 final h u hu
      simp only [downloadGo, Option.some.injEq, Prod.mk.injEq] at h
      obtain ⟨h1, h2⟩ := h
      subst h1
      subst h2
      exact ⟨hu, fun i w hb => Or.inl hb⟩
  | succ fuel ih =>
      intro index errs trace trace2 final h u hu
      rw [downloadGo] at h
      split at h
      case isTrue he =>
          simp only [Option.some.injEq, Prod.mk.injEq] at h
          obtain ⟨h1, h2⟩ := h
          subst h1
          subst h2
          exact ⟨hu, fun i w hb => Or.inl hb⟩
      case isFalse he =>
          cases hdl : download_urls lzma meta (resp index) errs with
          | none => simp [hdl] at h
          | some errs2 =>
              simp only [hdl] at h
              obtain ⟨hu2, hbat⟩ := ih (index + 1) errs2
                (trace ++ [Ev.sleep 5, Ev.batch index errs]) trace2 final h u hu
              obtain ⟨hue, hre⟩ :=
                (download_urls_mem lzma meta (resp index) errs errs2 hdl u).mp hu2
              refine ⟨hue, fun i w hb => ?_⟩
              rcases hbat i w hb with hin | hr
              · rw [List.mem_append] at hin
                rcases hin with hin | hin
                · exact Or.inl hin
                · simp only [List.mem_cons, List.not_mem_nil, or_false] at hin
                  rcases hin with hin | hin
                  · exact absurd hin (by simp)
                  · obtain ⟨hi, hw⟩ := Ev.batch.inj hin
                    subst hi
                    exact Or.inr hre
              · exact Or.inr hr

/-- C3: (a) in every completed batch, the returned retry set contains a
URL iff it was in the batch and its response was retryable — any status
other than 200/404, or a transport error; a 200 or a 404 outcome (the
terminal no-data classes, along with empty bodies which
`process_response` drops without error) is never placed in the retry
set.  (b) Across a whole completed `download` run, every URL in the
final permanently-failed set got a retryable outcome at every batch it
went through — so the final set never contains a URL that got a 200 or a
404 response. -/
theorem retry_set_classification (lzma : List Byte → Option (List Byte))
    (meta : List (String × ℚ)) (resp0 : String → HResp)
    (resp : Nat → String → HResp) (symbol : String) (start endd : Int) (rc : Nat) :
    (∀ urls rs, download_urls lzma meta resp0 urls = some rs →
      ∀ u, u ∈ rs ↔ (u ∈ urls ∧ retryable (resp0 u) = true))
    ∧ (∀ trace final,
        download lzma meta resp symbol start endd rc = some (trace, final) →
        ∀ u ∈ final, ∀ i w, Ev.batch i w ∈ trace → retryable (resp i u) = true) := by
  refine ⟨download_urls_mem lzma meta resp0, ?_⟩
  intro trace final h u hu i w hb
  cases hd0 : download_urls lzma meta (resp 0) (build_urls symbol start endd) with
  | none =>
      rw [download] at h
      simp [hd0] at h
  | some errs0 =>
      have h2 : downloadGo lzma meta resp rc 1 errs0
          [Ev.batch 0 (build_urls symbol start endd)] = some (trace, final) := by
        rw [download] at h
        simpa [hd0] using h
      obtain ⟨hu0, hbat⟩ :=
        downloadGo_final_batches lzma meta resp rc 1 errs0 _ trace final h2 u hu
      rcases hbat i w hb with hin | hr
      · simp only [List.mem_singleton] at hin
        obtain ⟨hi, hw⟩ := Ev.batch.inj hin
        subst hi
        exact ((download_urls_mem lzma meta (resp 0) _ errs0 hd0 u).mp hu0).2
      · exact hr

/-- Per-attempt oracle where every request fails with a transport error. -/
def respErr : Nat → String → HResp := fun _ _ => HResp.err

/-- C3 witness: in a one-day run with retry budget 0 where every request
fails with a transport error, hour 00's URL ends in the permanent
failure set, and the classification theorem applied to it at the (only)
batch event yields that its outcome was retryable. -/
theorem retry_set_classification_witness : retryable HResp.err = true :=
  (retry_set_classification lzmaFail [] (fun _ => HResp.err) respErr "EURUSD"
      day20030105 (day20030105 + 1) 0).2
    [Ev.batch 0 (build_urls "EURUSD" day20030105 (day20030105 + 1))]
    (build_urls "EURUSD" day20030105 (day20030105 + 1)) (by decide)
    urlEU (by decide) 0 (build_urls "EURUSD" day20030105 (day20030105 + 1))
    (by simp)

/-! ## C4 — structure of the retry loop -/

theorem downloadGo_chain (lzma : List Byte → Option (List Byte))
    (meta : List (String × ℚ)) (resp : Nat → String → HResp) (rc : Nat) :
    ∀ (fuel index : Nat) (errs : List String) (trace trace2 : List Ev)
      (final : List String),
      index + fuel = rc + 1 →
      downloadGo lzma meta resp fuel index errs trace = some (trace2, final) →
      ∃ suffix, trace2 = trace ++ suffix
        ∧ RetryChain lzma meta resp rc index errs suffix final := by
  intro fuel
  induction fuel with
  | zero =>
      intro index errs trace trace2 final hinv h
      simp only [downloadGo, Option.some.injEq, Prod.mk.injEq] at h
      obtain ⟨h1, h2⟩ := h
      subst h1
      subst h2
      exact ⟨[], by simp, RetryChain.done index errs (Or.inr (by omega))⟩
  | succ fuel ih =>
      intro index errs trace trace2 final hinv h
      rw [downloadGo] at h
      split at h
      case isTrue he =>
          simp only [Option.some.injEq, Prod.mk.injEq] at h
          obtain ⟨h1, h2⟩ := h
          subst h1
          subst h2
          exact ⟨[], by simp, RetryChain.done index errs (Or.inl he)⟩
      case isFalse he =>
          cases hdl : download_urls lzma meta (resp index) errs with
          | none => simp [hdl] at h
          | some errs2 =>
              simp only [hdl] at h
              obtain ⟨suffix, hs, hc⟩ :=
                ih (index + 1) errs2 _ trace2 final (by omega) h
              refine ⟨Ev.sleep 5 :: Ev.batch index errs :: suffix, ?_, ?_⟩
              · rw [hs]
                simp
              · exact RetryChain.step index errs errs2 suffix final he (by omega) hdl hc

theorem retryChain_count (lzma : List Byte → Option (List Byte))
    (meta : List (String × ℚ)) (resp : Nat → String → HResp) (rc : Nat)
    (index : Nat) (errs : List String) (suffix : List Ev) (final : List String)
    (hc : RetryChain lzma meta resp rc index errs suffix final) :
    countBatches suffix ≤ rc + 1 - index := by
  induction hc with
  | done _ _ _ => simp [countBatches]
  | step index errs errs2 suffix final hne hle hdl rest ih =>
      simp [countBatches, List.countP_cons] at ih ⊢
      omega

/-- C4: a completed `download` run consists of the initial batch over
the built URL list followed by a retry phase of `RetryChain` shape: each
retry is a 5-second sleep then a batch over exactly the previous batch's
failure set, with at most `retry_count` retry batches; when the chain
stops (failure set empty, or attempt index past the budget) the
remaining failures are handed back unchanged inside the `some`-(`Ok`)
result — residual failures do not make the run fail. -/
theorem download_retry_structure (lzma : List Byte → Option (List Byte))
    (meta : List (String × ℚ)) (resp : Nat → String → HResp) (symbol : String)
    (start endd : Int) (rc : Nat) (trace : List Ev) (final : List String)
    (h : download lzma meta resp symbol start endd rc = some (trace, final)) :
    ∃ errs0 suffix,
      download_urls lzma meta (resp 0) (build_urls symbol start endd) = some errs0
      ∧ trace = Ev.batch 0 (build_urls symbol start endd) :: suffix
      ∧ RetryChain lzma meta resp rc 1 errs0 suffix final
      ∧ countBatches suffix ≤ rc := by
  cases hd0 : download_urls lzma meta (resp 0) (build_urls symbol start endd) with
  | none =>
      rw [download] at h
      simp [hd0] at h
  | some errs0 =>
      have h2 : downloadGo lzma meta resp rc 1 errs0
          [Ev.batch 0 (build_urls symbol start endd)] = some (trace, final) := by
        rw [download] at h
        simpa [hd0] using h
      obtain ⟨suffix, hs, hc⟩ :=
        downloadGo_chain lzma meta resp rc rc 1 errs0 _ trace final (by omega) h2
      refine ⟨errs0, suffix, rfl, by simpa using hs, hc, ?_⟩
      have := retryChain_count lzma meta resp rc 1 errs0 suffix final hc
      omega

/-- Per-attempt oracle where every request gets a 404. -/
def resp404 : Nat → String → HResp := fun _ _ => HResp.ok 404 []

/-- C4 witness: the retry-structure theorem applied to a concrete
completed run (empty date range, budget 3): the trace is the single
initial batch and the chain is the immediate `done` case. -/
theorem download_retry_structure_witness :
    ∃ errs0 suffix,
      download_urls lzmaFail [] (resp404 0)
          (build_urls "EURUSD" day20030105 day20030105) = some errs0
      ∧ [Ev.batch 0 (build_urls "EURUSD" day20030105 day20030105)]
          = Ev.batch 0 (build_urls "EURUSD" day20030105 day20030105) :: suffix
      ∧ RetryChain lzmaFail [] resp404 3 1 errs0 suffix []
      ∧ countBatches suffix ≤ 3 :=
  download_retry_structure lzmaFail [] resp404 "EURUSD" day20030105 day20030105 3
    [Ev.batch 0 (build_urls "EURUSD" day20030105 day20030105)] [] (by decide)
